import Mathlib

/-!
# Compass activity-planning core: a verification development

A shallow embedding, in Lean 4, of the algorithmic core of the Compass
activity-advisor repository: the quality validator, the fit scorer, the
canonicalizer/deduplicator, the source-health tracker, the recommendation
selector, the family constraint solver, the infeasibility diagnoser, and the
dashboard budget handling.  Python numbers are modelled as `ℚ` (or `Int`/`Nat`
where the source uses integers), exceptions as `Option`, and collaborator
calls (HTTP reachability, geocoding, catalog queries, the CP-SAT re-solve)
as explicit oracle parameters.
-/

namespace Compass

/-! ## Quality Validator (`validate_activity`) -/

/-- The fields of a normalized activity dict that `validate_activity` reads.
`httpOk` and `geocodeOk` (outcomes of the `requests.head` call and of
`geocode_address`) are passed to the validator separately, as environment
outcomes.  `age_min`/`age_max` are optional because the source uses
`activity.get('age_min', 0)` / `activity.get('age_max', 100)`. -/
structure RawActivity where
  name : String
  category : String
  age_min : Option Int
  age_max : Option Int
  venue_present : Bool
  schedule_present : Bool
  price : String
  start_date : Int

/-- The regex `^\$?\d+(\.\d{2})?$` from the price-format check: an optional
dollar sign, one or more digits, and optionally a dot followed by exactly two
digits. -/
def price_format_ok (s : List Char) : Bool :=
  let s1 := match s with
    | '$' :: t => t
    | t => t
  let ds := s1.takeWhile Char.isDigit
  let rest := s1.drop ds.length
  decide (1 ≤ ds.length) &&
    (match rest with
     | [] => true
     | '.' :: d1 :: d2 :: [] => d1.isDigit && d2.isDigit
     | _ => false)

/-- Python truthiness of the fields consulted by the `required_fields` check
(`not activity.get(f)`): a string is truthy when non-empty, an int when
non-zero, a missing key is falsy. -/
def field_truthy_name (a : RawActivity) : Bool := !(a.name == "")

def field_truthy_category (a : RawActivity) : Bool := !(a.category == "")

def field_truthy_age_min (a : RawActivity) : Bool :=
  match a.age_min with
  | some n => !(n == 0)
  | none => false

def field_truthy_age_max (a : RawActivity) : Bool :=
  match a.age_max with
  | some n => !(n == 0)
  | none => false

/-- The ordered six-check list built by `validate_activity`:
`http_200`, `future_date`, `price_format`, `geocode`, `age_sane`,
`required_fields`. -/
def validation_checks (httpOk geocodeOk : Bool) (now : Int) (a : RawActivity) :
    List (String × Bool) :=
  let age_min := a.age_min.getD 0
  let age_max := a.age_max.getD 100
  [("http_200", httpOk),
   ("future_date", decide (now < a.start_date)),
   ("price_format", price_format_ok a.price.data),
   ("geocode", geocodeOk),
   ("age_sane", decide (2 ≤ age_min) && decide (age_min < age_max) && decide (age_max ≤ 18)),
   ("required_fields",
     field_truthy_name a && field_truthy_category a &&
     field_truthy_age_min a && field_truthy_age_max a &&
     a.venue_present && a.schedule_present)]

/-- `ValidationResult`: overall pass flag (`passed >= total - 1`, one failure
allowed), the pass rate `passed / total`, and the failing check names. -/
structure ValidationResult where
  passed : Bool
  pass_rate : ℚ
  issues : List String

/-- `validate_activity` from the de-duplication/validation module. -/
def validate_activity (httpOk geocodeOk : Bool) (now : Int) (a : RawActivity) :
    ValidationResult :=
  let checks := validation_checks httpOk geocodeOk now a
  let passed := checks.countP (fun c => c.2)
  let total := checks.length
  { passed := decide (total - 1 ≤ passed)
    pass_rate := (passed : ℚ) / (total : ℚ)
    issues := (checks.filter (fun c => !c.2)).map (fun c => c.1) }

/-! ## Fit Scorer (`score_activity`) -/

/-- The values of the individual sub-score helper functions that
`score_activity` combines (`age_band_match`, `intensity_match`, …,
`goal_match` per ranked goal).  The helpers themselves live outside the
scoring snippet; `score_activity` is a function of their values only. -/
structure SubScores where
  age_band : ℚ
  intensity : ℚ
  sensory : ℚ
  team_solo : ℚ
  prereq : ℚ
  neuro : ℚ
  commute : ℚ
  schedule : ℚ
  price : ℚ
  scholarship : ℚ
  transit : ℚ
  goal_matches : List ℚ
deriving DecidableEq

/-- The per-rank goal weights `[0.10, 0.06, 0.04]` zipped against the child's
ranked goals. -/
def goal_weights : List ℚ := [10/100, 6/100, 4/100]

/-- Fit component: `age_band*0.15 + intensity*0.10 + sensory*0.10 +
team_solo*0.05 + prerequisites*0.05 + neurodiversity*0.05`. -/
def fit_score (s : SubScores) : ℚ :=
  s.age_band * (15/100) + s.intensity * (10/100) + s.sensory * (10/100) +
    s.team_solo * (5/100) + s.prereq * (5/100) + s.neuro * (5/100)

/-- Practical component: `commute*0.10 + schedule*0.10 + price*0.05 +
scholarship*0.025 + transit*0.025`. -/
def practical_score (s : SubScores) : ℚ :=
  s.commute * (10/100) + s.schedule * (10/100) + s.price * (5/100) +
    s.scholarship * (25/1000) + s.transit * (25/1000)

/-- Goals component: `sum(goal_weight * goal_match for goal, goal_weight in
zip(child.goals, [0.10, 0.06, 0.04]))` (zip truncates to the shorter list). -/
def goals_score (s : SubScores) : ℚ :=
  ((s.goal_matches.zip goal_weights).map (fun p => p.2 * p.1)).sum

/-- `ScoredActivity`: the total score plus the three named components exactly
as stored in the `components` dict of the result. -/
structure ScoredActivity where
  score : ℚ
  fit : ℚ
  practical : ℚ
  goals : ℚ
deriving DecidableEq

/-- `score_activity` with the contextual bandit disabled (the bandit
adjustment is an optional downstream layer): the total is the plain sum
`fit_score + practical_score + goals_score` of the three already-weighted
components. -/
def score_activity (s : SubScores) : ScoredActivity :=
  { score := fit_score s + practical_score s + goals_score s
    fit := fit_score s
    practical := practical_score s
    goals := goals_score s }

/-- A sub-score record with every helper value equal to 1 (and three fully
matched ranked goals). -/
def subAllOnes : SubScores :=
  { age_band := 1, intensity := 1, sensory := 1, team_solo := 1, prereq := 1
    neuro := 1, commute := 1, schedule := 1, price := 1, scholarship := 1
    transit := 1, goal_matches := [1, 1, 1] }

/-- A sub-score record with every helper value equal to 1/2. -/
def subHalves : SubScores :=
  { age_band := 1/2, intensity := 1/2, sensory := 1/2, team_solo := 1/2
    prereq := 1/2, neuro := 1/2, commute := 1/2, schedule := 1/2
    price := 1/2, scholarship := 1/2, transit := 1/2
    goal_matches := [1/2, 1/2] }

/-! ## Canonicalizer / Deduplicator (`compute_canon_hash`, `deduplicate`) -/

/-- A canonical activity as consumed by `deduplicate` and
`compute_canon_hash`. -/
structure Activity where
  name : String
  description : String
  canon_hash : String
  last_verified : Int
  start_date : Int
  venue_lat : ℚ
  venue_lon : ℚ
  provider : String
deriving DecidableEq

/-- `compute_canon_hash`, parameterized over the helper functions it calls
(`normalize_name`, `fuzzy_round_date` with its 3-day bucket, the geohash
library's 6-character encoder, and `hashlib.sha256(...).hexdigest()`), whose
implementations live outside this module.  The hash input is the string
`"norm_name|fuzzy_date|geo|org"` with `org` the lowercased provider name. -/
def compute_canon_hash (normalize_name : String → String)
    (fuzzy_round_date : Int → Int) (geohash6 : ℚ → ℚ → String)
    (sha256hex : String → String) (a : Activity) : String :=
  let norm_name := normalize_name a.name
  let fuzzy_date := fuzzy_round_date a.start_date
  let geo := geohash6 a.venue_lat a.venue_lon
  let org := a.provider.toLower
  sha256hex (norm_name ++ "|" ++ toString fuzzy_date ++ "|" ++ geo ++ "|" ++ org)

/-- Length of an activity's free-text description, the key of
`max(group, key=lambda a: len(a.description))`. -/
def descLen (a : Activity) : Nat := a.description.length

/-- One step of Python's `max` with a key function: the current best is
replaced only when the new element's key is strictly larger, so `max` returns
the first maximal element. -/
def pickLonger (best x : Activity) : Activity :=
  if descLen best < descLen x then x else best

/-- `max(group, key=lambda a: len(a.description))` on a non-empty group given
as head and tail. -/
def maxByDescLen (hd : Activity) (tl : List Activity) : Activity :=
  tl.foldl pickLonger hd

/-- The members of `groups[h]`: the input activities whose `canon_hash`
equals `h`, in input order (`defaultdict(list)` appends in order). -/
def groupOf (l : List Activity) (h : String) : List Activity :=
  l.filter (fun a => a.canon_hash == h)

/-- First-occurrence de-duplication of a key list: the iteration order of a
Python dict whose keys were inserted in input order. -/
def firstDedupAux (seen : List String) : List String → List String
  | [] => []
  | k :: t =>
    if k ∈ seen then firstDedupAux seen t
    else k :: firstDedupAux (k :: seen) t

/-- The distinct `canon_hash` values of the input, in first-occurrence
order — the iteration order of `groups.items()`. -/
def hashKeys (l : List Activity) : List String :=
  firstDedupAux [] (l.map (fun a => a.canon_hash))

/-- The canonical representative of one duplicate group: the first member
with the longest description (`max` with `len(a.description)` as key; a
singleton group is returned as is, which coincides with `max`). -/
def best_of_group (g : List Activity) : Option Activity :=
  match g with
  | [] => none
  | hd :: tl => some (maxByDescLen hd tl)

/-- `deduplicate`: group by `canon_hash`, pick one representative per group,
in group first-occurrence order. -/
def deduplicate (l : List Activity) : List Activity :=
  (hashKeys l).filterMap (fun h => best_of_group (groupOf l h))

/-- "First member of `g` with maximal description length", phrased directly:
the first element whose description is at least as long as every member's. -/
def firstLongest (g : List Activity) : Option Activity :=
  g.find? (fun a => g.all (fun b => decide (descLen b ≤ descLen a)))

/-- Duplicate-group fixture: the earlier-listed copy, with the later
verification timestamp. -/
def dupA : Activity :=
  { name := "City Soccer", description := "weekly", canon_hash := "h0"
    last_verified := 10, start_date := 0, venue_lat := 0, venue_lon := 0
    provider := "City Rec" }

/-- Duplicate-group fixture: the later-listed copy of the same listing, with
the same name and an equally long description but the earlier
`last_verified`. -/
def dupB : Activity :=
  { name := "City Soccer", description := "Sunday", canon_hash := "h0"
    last_verified := 3, start_date := 0, venue_lat := 0, venue_lon := 0
    provider := "City Rec" }

/-! ## Source Health Tracker -/

/-- Modelled from the spec: whether an ingestion run is below the quality
threshold — aggregate pass rate below 0.85 or broken-link rate above 0.05.
(`run_scraper_cycle` only shows the call site `if pass_rate < 0.85:
flag_source_quality(...)`; the tracker itself is not part of the source
snippet.) -/
def run_below_threshold (pass_rate broken_link_rate : ℚ) : Bool :=
  decide (pass_rate < 85/100) || decide (5/100 < broken_link_rate)

/-- `SourceHealthRecord`: rolling count of consecutive sub-threshold runs and
the current demotion status. -/
structure SourceHealthRecord where
  consecutive_bad : Nat
  demoted : Bool
deriving DecidableEq

/-- Modelled from the spec: the Source Health Tracker update applied after
each ingestion run (the body of `flag_source_quality` and the recovery path
are missing from the source; only the call site in `run_scraper_cycle`
appears).  A sub-threshold run extends the bad streak and demotes the source
once the streak reaches two consecutive runs; one full run above threshold
resets the streak and recovers the source. -/
def update_source_health (h : SourceHealthRecord)
    (pass_rate broken_link_rate : ℚ) : SourceHealthRecord :=
  if run_below_threshold pass_rate broken_link_rate then
    { consecutive_bad := h.consecutive_bad + 1
      demoted := h.demoted || decide (2 ≤ h.consecutive_bad + 1) }
  else
    { consecutive_bad := 0, demoted := false }

/-- A healthy source record: no bad streak, not demoted. -/
def healthyRecord : SourceHealthRecord := ⟨0, false⟩

/-! ## Recommendation Selector (`generate_recommendations`) -/

/-- A scored candidate as the selector consumes it: its total score and its
normalized monthly price (`normalize_price_to_monthly(activity.money)`). -/
structure SCand where
  id : Nat
  score : ℚ
  price_monthly : ℚ
deriving DecidableEq

/-- Stable insertion of a candidate into a list sorted by descending score:
the new element goes before the first element whose score is not larger.
`scored.sort(key=lambda x: x.score, reverse=True)` is Python's stable sort,
whose output this insertion sort reproduces exactly. -/
def insertDesc (c : SCand) : List SCand → List SCand
  | [] => [c]
  | b :: t => if b.score ≤ c.score then c :: b :: t else b :: insertDesc c t

/-- `scored.sort(key=lambda x: x.score, reverse=True)` as a stable descending
sort. -/
def sortByScoreDesc (l : List SCand) : List SCand :=
  l.foldr insertDesc []

/-- `int(len(scored) * 0.2)`: for every list length below the float-precision
regime (`≤ 2^51`), truncating `len * 0.2` computed in IEEE doubles equals
`len / 5` in integers, since the fractional part of `len/5` is one of
0, 0.2, 0.4, 0.6, 0.8 and the rounding error is far smaller. -/
def pyTop20Count (n : Nat) : Nat := n / 5

/-- Python's `min(l, key=...)` on candidates keyed by normalized monthly
price: the first element with minimal key; `min([])` raises `ValueError`,
hence `none`. -/
def minByPrice : List SCand → Option SCand
  | [] => none
  | hd :: tl =>
    some (tl.foldl (fun best x =>
      if x.price_monthly < best.price_monthly then x else best) hd)

/-- `RecommendationSet` as built by `generate_recommendations`: the three
chosen candidates (explanations elided — `generate_explanation` is a total
formatting step). -/
structure RecommendationSet where
  primary : SCand
  budget_saver : SCand
  stretch : SCand
deriving DecidableEq

/-- `generate_recommendations` restricted to its selection logic, taking the
already-scored candidate list.  Uncaught Python exceptions are modelled as
`none`: `scored[0]` on an empty list and `scored[1]` on a singleton raise
`IndexError`; `min` over an empty top-20% slice raises `ValueError`. -/
def generate_recommendations (budget_per_month : ℚ) (scored0 : List SCand) :
    Option RecommendationSet :=
  let scored := sortByScoreDesc scored0
  match scored with
  | [] => none
  | primary :: _ =>
    match minByPrice (scored.take (pyTop20Count scored.length)) with
    | none => none
    | some saver =>
      let stretch_candidates :=
        scored.filter (fun s => decide (budget_per_month * (12/10) < s.price_monthly))
      match stretch_candidates with
      | s :: _ => some ⟨primary, saver, s⟩
      | [] =>
        match scored.get? 1 with
        | some s2 => some ⟨primary, saver, s2⟩
        | none => none

/-- The three-candidate fixture of the spec's selector test: scores 0.9, 0.7
and 0.5, where only the 0.5-scored candidate is priced above 120% of the
monthly budget (budget 100, prices 80/90/130). -/
def selectorTriple : List SCand :=
  [⟨1, 9/10, 80⟩, ⟨2, 7/10, 90⟩, ⟨3, 5/10, 130⟩]

/-! ## Constraint Solver (`solve_family_schedule`) -/

/-- A candidate activity in a child's pool, carrying the integer-scaled
quantities the CP-SAT model uses: `int(normalize_price_to_monthly(...) * 100)`
cents and `int(score * 1000)` score units. -/
structure PoolAct where
  id : Nat
  costCents : Int
  scoreMilli : Int
deriving DecidableEq

/-- One child's candidate pool (`candidates[child.id]`). -/
structure ChildPool where
  child : Nat
  acts : List PoolAct
deriving DecidableEq

/-- The decision-variable index set: one `(child, activity)` pair per boolean
variable `x[(child_id, activity.id)]`. -/
def poolPairs (pools : List ChildPool) : List (Nat × PoolAct) :=
  pools.flatMap (fun p => p.acts.map (fun a => (p.child, a)))

/-- All 0/1 valuations of the decision variables, as the sublists of the pair
list. -/
def assignments : List (Nat × PoolAct) → List (List (Nat × PoolAct))
  | [] => [[]]
  | x :: t => (assignments t).map (fun s => x :: s) ++ assignments t

/-- Whether the assignment selects activity `a` for child `c` (the value of
the boolean variable `x[(c, a.id)]`). -/
def selectedIn (sel : List (Nat × PoolAct)) (c : Nat) (a : PoolAct) : Bool :=
  decide ((c, a) ∈ sel)

/-- The pairwise no-conflict constraints for one child's pool: for each
`i < j` with `schedules_conflict(act_i, act_j)`, not both selected
(`x_i + x_j <= 1`). -/
def conflictViolated (conflict : PoolAct → PoolAct → Bool) (c : Nat)
    (sel : List (Nat × PoolAct)) : List PoolAct → Bool
  | [] => false
  | a :: t =>
    t.any (fun b => conflict a b && selectedIn sel c a && selectedIn sel c b) ||
      conflictViolated conflict c sel t

/-- Total selected cost in cents (`sum(x * cost)`). -/
def selCost (sel : List (Nat × PoolAct)) : Int :=
  (sel.map (fun q => q.2.costCents)).sum

/-- Total selected integer-scaled score, the CP-SAT objective. -/
def selScore (sel : List (Nat × PoolAct)) : Int :=
  (sel.map (fun q => q.2.scoreMilli)).sum

/-- The CP-SAT constraint set: per-child activity cap, per-child pairwise
schedule-conflict exclusions, and (when a budget is given) the total-cost
bound in cents. -/
def feasibleAssignment (cap : Nat) (budgetCents : Option Int)
    (conflict : PoolAct → PoolAct → Bool) (pools : List ChildPool)
    (sel : List (Nat × PoolAct)) : Bool :=
  pools.all (fun p => decide (p.acts.countP (selectedIn sel p.child) ≤ cap)) &&
  pools.all (fun p => !conflictViolated conflict p.child sel p.acts) &&
  (match budgetCents with
   | none => true
   | some b => decide (selCost sel ≤ b))

/-- Keep the assignment with the larger objective (the incumbent on a tie). -/
def betterOf (best x : List (Nat × PoolAct)) : List (Nat × PoolAct) :=
  if selScore best < selScore x then x else best

/-- An optimal solution over an explicit solution list: the first assignment
attaining the maximal objective (a deterministic instance of CP-SAT's
optimal-solution guarantee). -/
def bestAssignment : List (List (Nat × PoolAct)) → Option (List (Nat × PoolAct))
  | [] => none
  | s :: rest => some (rest.foldl betterOf s)

/-- `SolverResult`: the feasibility flag and, when feasible, the selected
`(child, activity)` pairs (the `plan`). -/
structure SolverResult where
  feasible : Bool
  plan : Option (List (Nat × PoolAct))
deriving DecidableEq

/-- `solve_family_schedule` restricted to its optimization core: maximize the
summed integer-scaled scores over all variable valuations satisfying the cap,
conflict and budget constraints.  `OPTIMAL`/`FEASIBLE` yields the plan;
otherwise `feasible=false`. -/
def solve_family_schedule (cap : Nat) (budgetCents : Option Int)
    (conflict : PoolAct → PoolAct → Bool) (pools : List ChildPool) :
    SolverResult :=
  match bestAssignment
      ((assignments (poolPairs pools)).filter
        (feasibleAssignment cap budgetCents conflict pools)) with
  | some sel => { feasible := true, plan := some sel }
  | none => { feasible := false, plan := none }

/-- Concrete conflicting candidate pair for the solver scenario. -/
def solA : PoolAct := ⟨1, 4000, 900⟩

/-- Second member of the conflicting candidate pair. -/
def solB : PoolAct := ⟨2, 5000, 700⟩

/-! ## Infeasibility Diagnoser (`diagnose_infeasibility`) -/

/-- A child profile as the diagnoser reads it. -/
structure DiagChild where
  id : Nat
  driving_radius_km : Int
  schedule_windows : List Nat
deriving DecidableEq

/-- The collaborator outcomes `diagnose_infeasibility` consumes:
`test_solver_with_budget` on the cloned model, the catalog candidate count
`len(get_candidate_activities(...))` per child and radius, and
`get_popular_activity_times`. -/
structure DiagEnv where
  feasible_with_budget : ℚ → Bool
  candidate_count : Nat → Int → Nat
  popular_times : List Nat

/-- One relaxation suggestion (`enables` annotations elided). -/
inductive Suggestion
  | increase_budget (target : ℚ)
  | expand_radius (child_id : Nat) (target : Int)
  | add_time_window (child_id : Nat) (windows : List Nat)
deriving DecidableEq

/-- The fixed budget increments `[50, 100, 150]`. -/
def budget_increments : List ℚ := [50, 100, 150]

/-- The fixed radius increments `[5, 10, 15]`. -/
def radius_increments : List Int := [5, 10, 15]

/-- The budget probe: `if max_budget:` (so `None` and a zero budget are both
skipped), then the first increment whose re-solve
(`test_solver_with_budget`) is feasible, appended and the loop broken. -/
def budget_probe (env : DiagEnv) (max_budget : Option ℚ) : List Suggestion :=
  match max_budget with
  | none => []
  | some b =>
    if b == 0 then []
    else
      match budget_increments.find? (fun inc => env.feasible_with_budget (b + inc)) with
      | some inc => [.increase_budget (b + inc)]
      | none => []

/-- The radius probe for one child: the first increment under which the
re-queried catalog yields more candidates than the original pool
(`count_new > 0`), appended and the loop broken — the expanded pool is never
re-solved. -/
def radius_probe (env : DiagEnv) (candidates_count : Nat → Nat)
    (c : DiagChild) : List Suggestion :=
  match radius_increments.find? (fun inc =>
      decide (candidates_count c.id <
        env.candidate_count c.id (c.driving_radius_km + inc))) with
  | some inc => [.expand_radius c.id (c.driving_radius_km + inc)]
  | none => []

/-- The time-window probe for one child: if any popular activity times are
missing from the child's schedule windows, suggest up to two of them — with
no feasibility probing. -/
def time_window_probe (env : DiagEnv) (c : DiagChild) : List Suggestion :=
  let missing := env.popular_times.filter (fun t => !c.schedule_windows.contains t)
  match missing with
  | [] => []
  | _ => [.add_time_window c.id (missing.take 2)]

/-- `diagnose_infeasibility`: the budget probe, then the per-child radius
probes, then the per-child time-window probes, all appended to one
suggestion list. -/
def diagnose_infeasibility (env : DiagEnv) (children : List DiagChild)
    (candidates_count : Nat → Nat) (max_budget : Option ℚ) : List Suggestion :=
  budget_probe env max_budget ++
    children.flatMap (radius_probe env candidates_count) ++
    children.flatMap (time_window_probe env)

/-- The radius probe as the specification words it: relaxations are re-solved
and the first radius increment whose re-solve achieves feasibility is
reported (`resolve child_id new_radius` being the re-solve outcome). -/
def radius_probe_per_spec (resolve : Nat → Int → Bool) (c : DiagChild) :
    List Suggestion :=
  match radius_increments.find? (fun inc =>
      resolve c.id (c.driving_radius_km + inc)) with
  | some inc => [.expand_radius c.id (c.driving_radius_km + inc)]
  | none => []

/-- A diagnoser environment in which no relaxation of any kind makes the
solve feasible, yet expanding the radius to 10 km does surface new catalog
entries. -/
def diagEnvCE : DiagEnv :=
  { feasible_with_budget := fun _ => false
    candidate_count := fun _ r => if 10 ≤ r then 3 else 1
    popular_times := [] }

/-- The child probed in the diagnoser scenario: radius 5 km, no schedule
windows. -/
def diagChildCE : DiagChild := ⟨0, 5, []⟩

/-! ## Dashboard budget handling (`handleCreateFamily` / `DashboardPage`) -/

/-- Decimal value of a digit list, most significant first. -/
def digitsVal (s : List Char) : Nat :=
  s.foldl (fun n c => 10 * n + (c.toNat - '0'.toNat)) 0

/-- JavaScript `parseInt` on a non-negative decimal input string: the maximal
leading digit run is read as an integer; a string with no leading digits
gives `NaN`, modelled `none`. -/
def parseIntLeading (s : List Char) : Option Nat :=
  let ds := s.takeWhile Char.isDigit
  if ds.isEmpty then none else some (digitsVal ds)

/-- The `budget_monthly` field sent by `handleCreateFamily`: an empty input
is falsy and sent as `undefined`, otherwise
`parseInt(familyForm.budget_monthly) * 100` cents. -/
def budget_to_cents (input : List Char) : Option Nat :=
  if input.isEmpty then none else (parseIntLeading input).map (fun n => n * 100)

/-- The dollars-and-cents pair rendered by
`(family.budget_monthly / 100).toFixed(2)` (exact for whole cent counts in
the double-precision range). -/
def displayed_budget (cents : Nat) : Nat × Nat := (cents / 100, cents % 100)

/-! ## Auxiliary predicates used in the statements -/

/-- Membership in the unit interval, the range claimed for sub-scores. -/
def unitInterval (x : ℚ) : Prop := 0 ≤ x ∧ x ≤ 1

instance (x : ℚ) : Decidable (unitInterval x) := by
  unfold unitInterval; infer_instance

/-- Whether a suggestion is an `increase_budget` suggestion. -/
def isBudgetSugg : Suggestion → Bool
  | .increase_budget _ => true
  | _ => false

/-- Whether a suggestion is an `expand_radius` suggestion for child `cid`. -/
def isRadiusSuggFor (cid : Nat) : Suggestion → Bool
  | .expand_radius c _ => c == cid
  | _ => false

/-- Whether a suggestion is an `add_time_window` suggestion for child
`cid`. -/
def isTWSuggFor (cid : Nat) : Suggestion → Bool
  | .add_time_window c _ => c == cid
  | _ => false

/-! ## Theorems -/

/-- C1: for every normalized listing (and every reachability/geocoding
outcome), `validate_activity` runs the fixed six-check list, its
`pass_rate` equals `passed_checks / total_checks` and lies in [0, 1], and
the listing is marked recommendable if and only if at most one of the six
checks fails. -/
theorem validator_six_checks (httpOk geocodeOk : Bool) (now : Int)
    (a : RawActivity) :
    (validation_checks httpOk geocodeOk now a).length = 6 ∧
    (validate_activity httpOk geocodeOk now a).pass_rate =
      ((validation_checks httpOk geocodeOk now a).countP (fun c => c.2) : ℚ) / 6 ∧
    0 ≤ (validate_activity httpOk geocodeOk now a).pass_rate ∧
    (validate_activity httpOk geocodeOk now a).pass_rate ≤ 1 ∧
    ((validate_activity httpOk geocodeOk now a).passed = true ↔
      (validation_checks httpOk geocodeOk now a).countP (fun c => !c.2) ≤ 1) := by
  have hlen : (validation_checks httpOk geocodeOk now a).length = 6 := by
    simp [validation_checks]
  have hle : (validation_checks httpOk geocodeOk now a).countP (fun c => c.2) ≤ 6 :=
    hlen ▸ List.countP_le_length _
  have hsplit := List.length_eq_countP_add_countP (p := fun c : String × Bool => c.2)
    (l := validation_checks httpOk geocodeOk now a)
  have hconv : (fun a : String × Bool => decide ¬(a.2 = true)) =
      (fun c : String × Bool => !c.2) := by
    funext c
    cases hc : c.2 <;> simp [hc]
  rw [hconv, hlen] at hsplit
  refine ⟨hlen, ?_, ?_, ?_, ?_⟩
  · simp only [validate_activity, hlen]
    norm_num
  · simp only [validate_activity]
    positivity
  · simp only [validate_activity, hlen]
    rw [div_le_one (by norm_num)]
    exact_mod_cast hle
  · simp only [validate_activity, hlen, decide_eq_true_eq]
    omega

/-- C1 witness: a concrete listing on which every check passes. -/
theorem validator_six_checks_witness :
    (validation_checks true true 0
      { name := "Swim", category := "sports", age_min := some 6,
        age_max := some 10, venue_present := true, schedule_present := true,
        price := "$25.00", start_date := 5 }).length = 6 ∧
    (validate_activity true true 0
      { name := "Swim", category := "sports", age_min := some 6,
        age_max := some 10, venue_present := true, schedule_present := true,
        price := "$25.00", start_date := 5 }).passed = true := by
  refine ⟨(validator_six_checks true true 0 _).1, ?_⟩
  exact (validator_six_checks true true 0 _).2.2.2.2.mpr (by decide)

/-- C2 counterexample: with every sub-score equal to 1, the code's stored
components are `fit = 0.5`, `practical = 0.3`, `goals = 0.2` and the total is
their plain sum 1, which differs from the claimed weighted combination
`0.5·fit + 0.3·practical + 0.2·goals` of those components. -/
theorem scorer_weighted_identity_counterexample :
    (score_activity subAllOnes).score = 1 ∧
    (score_activity subAllOnes).fit = 1/2 ∧
    (score_activity subAllOnes).practical = 3/10 ∧
    (score_activity subAllOnes).goals = 1/5 ∧
    (score_activity subAllOnes).score ≠
      (5/10) * (score_activity subAllOnes).fit +
        (3/10) * (score_activity subAllOnes).practical +
        (2/10) * (score_activity subAllOnes).goals := by
  refine ⟨?_, ?_, ?_, ?_, ?_⟩ <;>
    norm_num [score_activity, fit_score, practical_score, goals_score,
      subAllOnes, goal_weights]

/-- Bound on a weight-zipped sum: if every match value is in [0, 1] and every
weight is non-negative, the zipped weighted sum lies between 0 and the total
weight. -/
theorem zip_weight_sum_bounds (ms ws : List ℚ)
    (hm : ∀ m ∈ ms, unitInterval m) (hw : ∀ w ∈ ws, 0 ≤ w) :
    0 ≤ ((ms.zip ws).map (fun p => p.2 * p.1)).sum ∧
    ((ms.zip ws).map (fun p => p.2 * p.1)).sum ≤ ws.sum := by
  induction ms generalizing ws with
  | nil =>
    simpa using List.sum_nonneg hw
  | cons m t ih =>
    cases ws with
    | nil => simp
    | cons w tw =>
      have hmw := hm m (by simp)
      have hww : 0 ≤ w := hw w (by simp)
      have hrest := ih tw (fun x hx => hm x (by simp [hx]))
        (fun x hx => hw x (by simp [hx]))
      have h1 : 0 ≤ w * m := mul_nonneg hww hmw.1
      have h2 : w * m ≤ w := mul_le_of_le_one_right hww hmw.2
      simp only [List.zip_cons_cons, List.map_cons, List.sum_cons]
      constructor <;> linarith [hrest.1, hrest.2]

/-- C2 (amended): when every sub-score is in [0, 1], the stored components
satisfy `fit ∈ [0, 0.5]`, `practical ∈ [0, 0.3]`, `goals ∈ [0, 0.2]` (the
0.5/0.3/0.2 weights are folded into the per-sub-score weights), the total is
their plain sum, and the total lies in [0, 1]. -/
theorem scorer_components_bounded (s : SubScores)
    (h1 : unitInterval s.age_band) (h2 : unitInterval s.intensity)
    (h3 : unitInterval s.sensory) (h4 : unitInterval s.team_solo)
    (h5 : unitInterval s.prereq) (h6 : unitInterval s.neuro)
    (h7 : unitInterval s.commute) (h8 : unitInterval s.schedule)
    (h9 : unitInterval s.price) (h10 : unitInterval s.scholarship)
    (h11 : unitInterval s.transit)
    (hg : ∀ m ∈ s.goal_matches, unitInterval m) :
    (0 ≤ (score_activity s).fit ∧ (score_activity s).fit ≤ 5/10) ∧
    (0 ≤ (score_activity s).practical ∧ (score_activity s).practical ≤ 3/10) ∧
    (0 ≤ (score_activity s).goals ∧ (score_activity s).goals ≤ 2/10) ∧
    (score_activity s).score =
      (score_activity s).fit + (score_activity s).practical +
        (score_activity s).goals ∧
    0 ≤ (score_activity s).score ∧ (score_activity s).score ≤ 1 := by
  have hwnn : ∀ w ∈ goal_weights, (0:ℚ) ≤ w := by
    intro w hw
    simp only [goal_weights] at hw
    fin_cases hw <;> norm_num
  have hgs := zip_weight_sum_bounds s.goal_matches goal_weights hg hwnn
  have hwsum : goal_weights.sum = 2/10 := by norm_num [goal_weights]
  have hfit : 0 ≤ fit_score s ∧ fit_score s ≤ 5/10 := by
    unfold fit_score
    obtain ⟨a0, a1⟩ := h1; obtain ⟨b0, b1⟩ := h2; obtain ⟨c0, c1⟩ := h3
    obtain ⟨d0, d1⟩ := h4; obtain ⟨e0, e1⟩ := h5; obtain ⟨f0, f1⟩ := h6
    constructor <;> nlinarith
  have hpra : 0 ≤ practical_score s ∧ practical_score s ≤ 3/10 := by
    unfold practical_score
    obtain ⟨a0, a1⟩ := h7; obtain ⟨b0, b1⟩ := h8; obtain ⟨c0, c1⟩ := h9
    obtain ⟨d0, d1⟩ := h10; obtain ⟨e0, e1⟩ := h11
    constructor <;> nlinarith
  have hgoal : 0 ≤ goals_score s ∧ goals_score s ≤ 2/10 := by
    unfold goals_score
    exact ⟨hgs.1, hwsum ▸ hgs.2⟩
  refine ⟨hfit, hpra, hgoal, rfl, ?_, ?_⟩ <;>
    simp only [score_activity] <;> linarith [hfit.1, hfit.2, hpra.1, hpra.2,
      hgoal.1, hgoal.2]

/-- C2 witness: the amended bounds at the all-halves sub-score record. -/
theorem scorer_components_bounded_witness :
    (0 ≤ (score_activity subHalves).fit ∧ (score_activity subHalves).fit ≤ 5/10) ∧
    (0 ≤ (score_activity subHalves).practical ∧
      (score_activity subHalves).practical ≤ 3/10) ∧
    (0 ≤ (score_activity subHalves).goals ∧ (score_activity subHalves).goals ≤ 2/10) ∧
    (score_activity subHalves).score =
      (score_activity subHalves).fit + (score_activity subHalves).practical +
        (score_activity subHalves).goals ∧
    0 ≤ (score_activity subHalves).score ∧ (score_activity subHalves).score ≤ 1 := by
  have hu : unitInterval (1/2 : ℚ) := by constructor <;> norm_num
  refine scorer_components_bounded subHalves hu hu hu hu hu hu hu hu hu hu hu ?_
  intro m hm
  simp only [subHalves] at hm
  fin_cases hm <;> exact hu

/-- C5: under the spec-modelled Source Health Tracker, a single sub-threshold
run from a healthy record never demotes; a sub-threshold run followed by a
run at or above threshold never demotes; and whenever two successive runs
from a healthy record end demoted, both runs were sub-threshold. -/
theorem source_demotion_two_consecutive :
    (∀ p b : ℚ, (update_source_health healthyRecord p b).demoted = false) ∧
    (∀ p b p' b' : ℚ, run_below_threshold p' b' = false →
      (update_source_health (update_source_health healthyRecord p b) p' b').demoted
        = false) ∧
    (∀ p b p' b' : ℚ,
      (update_source_health (update_source_health healthyRecord p b) p' b').demoted
        = true →
      run_below_threshold p b = true ∧ run_below_threshold p' b' = true) := by
  refine ⟨?_, ?_, ?_⟩
  · intro p b
    cases hb1 : run_below_threshold p b <;>
      simp [update_source_health, healthyRecord, hb1]
  · intro p b p' b' hgood
    cases hb1 : run_below_threshold p b <;>
      simp [update_source_health, healthyRecord, hb1, hgood]
  · intro p b p' b' hdem
    cases hb1 : run_below_threshold p b <;> cases hb2 : run_below_threshold p' b' <;>
      simp [update_source_health, healthyRecord, hb1, hb2] at hdem ⊢

/-- C5 witness: a bad run (pass rate 0.5) does not demote; bad then good does
not demote; bad twice does demote, and both runs are certified
sub-threshold. -/
theorem source_demotion_witness :
    (update_source_health healthyRecord (1/2) 0).demoted = false ∧
    (update_source_health (update_source_health healthyRecord (1/2) 0) 1 0).demoted
      = false ∧
    (run_below_threshold (1/2) 0 = true ∧ run_below_threshold (1/2) 0 = true) := by
  have hbad : run_below_threshold (1/2) 0 = true := by
    simp only [run_below_threshold, Bool.or_eq_true, decide_eq_true_eq]
    left; norm_num
  have hgood : run_below_threshold 1 0 = false := by
    simp only [run_below_threshold, Bool.or_eq_false_iff, decide_eq_false_iff_not]
    constructor <;> norm_num
  have s1 : update_source_health healthyRecord (1/2) 0 = ⟨1, false⟩ := by
    rw [update_source_health, if_pos hbad]
    simp [healthyRecord]
  have s2 : update_source_health (⟨1, false⟩ : SourceHealthRecord) (1/2) 0 = ⟨2, true⟩ := by
    rw [update_source_health, if_pos hbad]
    simp
  refine ⟨source_demotion_two_consecutive.1 (1/2) 0,
    source_demotion_two_consecutive.2.1 (1/2) 0 1 0 hgood,
    source_demotion_two_consecutive.2.2 (1/2) 0 (1/2) 0 ?_⟩
  rw [s1, s2]

/-- `takeWhile` keeps a list all of whose elements satisfy the predicate. -/
theorem takeWhile_eq_self_of_all (p : Char → Bool) (l : List Char)
    (h : ∀ c ∈ l, p c = true) : l.takeWhile p = l := by
  induction l with
  | nil => rfl
  | cons c t ih =>
    rw [List.takeWhile_cons, h c (by simp)]
    simp [ih (fun x hx => h x (by simp [hx]))]

/-- `takeWhile` stops exactly at the first failing element. -/
theorem takeWhile_append_stop (p : Char → Bool) (l1 : List Char) (x : Char)
    (l2 : List Char) (h1 : ∀ c ∈ l1, p c = true) (hx : p x = false) :
    (l1 ++ x :: l2).takeWhile p = l1 := by
  induction l1 with
  | nil => simp [List.takeWhile_cons, hx]
  | cons c t ih =>
    rw [List.cons_append, List.takeWhile_cons, h1 c (by simp)]
    simp [ih (fun y hy => h1 y (by simp [hy]))]

/-- C10: the dashboard converts a dollars input to cents by
`parseInt(text) * 100`, so a pure-digit input `d` is stored as `100·d` and a
decimal input `d.ff` is truncated to `100·d`; the stored value is displayed
as `budget_monthly / 100` with two decimals, so a whole-dollar input
round-trips to exactly `d.00`. -/
theorem dashboard_budget_round_trip (intPart fracPart : List Char)
    (h1 : intPart ≠ []) (h2 : ∀ c ∈ intPart, c.isDigit = true) :
    budget_to_cents intPart = some (digitsVal intPart * 100) ∧
    budget_to_cents (intPart ++ '.' :: fracPart) = some (digitsVal intPart * 100) ∧
    displayed_budget (digitsVal intPart * 100) = (digitsVal intPart, 0) := by
  have hdot : ('.' : Char).isDigit = false := by decide
  have htw1 : intPart.takeWhile Char.isDigit = intPart :=
    takeWhile_eq_self_of_all _ _ h2
  have htw2 : (intPart ++ '.' :: fracPart).takeWhile Char.isDigit = intPart :=
    takeWhile_append_stop _ _ _ _ h2 hdot
  have hne : ¬(intPart.isEmpty = true) := by
    simp [List.isEmpty_iff, h1]
  have hne2 : ¬((intPart ++ '.' :: fracPart).isEmpty = true) := by
    simp [List.isEmpty_iff]
  refine ⟨?_, ?_, ?_⟩
  · rw [budget_to_cents, if_neg hne, parseIntLeading]
    simp only [htw1]
    rw [if_neg hne]
    rfl
  · rw [budget_to_cents, if_neg hne2, parseIntLeading]
    simp only [htw2]
    rw [if_neg hne]
    rfl
  · simp only [displayed_budget, Prod.mk.injEq]
    omega

/-- C10 witness: the whole-dollar input "500" is stored as 50000 cents and
displayed as 500.00; the decimal input "12.75" is truncated to 1200 cents. -/
theorem dashboard_budget_witness :
    budget_to_cents ['5', '0', '0'] = some (digitsVal ['5', '0', '0'] * 100) ∧
    budget_to_cents (['1', '2'] ++ '.' :: ['7', '5']) =
      some (digitsVal ['1', '2'] * 100) ∧
    displayed_budget (digitsVal ['5', '0', '0'] * 100) =
      (digitsVal ['5', '0', '0'], 0) :=
  ⟨(dashboard_budget_round_trip ['5', '0', '0'] [] (by decide) (by decide)).1,
   (dashboard_budget_round_trip ['1', '2'] ['7', '5'] (by decide) (by decide)).2.1,
   (dashboard_budget_round_trip ['5', '0', '0'] [] (by decide) (by decide)).2.2⟩

/-- `pickLonger` returns one of its two arguments. -/
theorem pickLonger_cases (best x : Activity) :
    pickLonger best x = best ∨ pickLonger best x = x := by
  unfold pickLonger
  split <;> simp

/-- `pickLonger` does not decrease the description length of the left
argument. -/
theorem descLen_le_pickLonger_left (best x : Activity) :
    descLen best ≤ descLen (pickLonger best x) := by
  unfold pickLonger
  split <;> omega

/-- `pickLonger` does not decrease the description length of the right
argument. -/
theorem descLen_le_pickLonger_right (best x : Activity) :
    descLen x ≤ descLen (pickLonger best x) := by
  unfold pickLonger
  split <;> omega

/-- Unfolding `maxByDescLen` one step. -/
theorem maxByDescLen_cons (hd x : Activity) (t : List Activity) :
    maxByDescLen hd (x :: t) = maxByDescLen (pickLonger hd x) t := rfl

/-- The `max`-by-description-length of a group is a member of the group. -/
theorem maxByDescLen_mem (hd : Activity) (tl : List Activity) :
    maxByDescLen hd tl ∈ hd :: tl := by
  induction tl generalizing hd with
  | nil => simp [maxByDescLen]
  | cons x t ih =>
    rw [maxByDescLen_cons]
    rcases List.mem_cons.mp (ih (pickLonger hd x)) with h | h
    · rw [h]
      rcases pickLonger_cases hd x with hc | hc <;> rw [hc] <;> simp
    · simp [h]

/-- The `max`-by-description-length dominates every group member. -/
theorem maxByDescLen_le (hd : Activity) (tl : List Activity) :
    ∀ a ∈ hd :: tl, descLen a ≤ descLen (maxByDescLen hd tl) := by
  induction tl generalizing hd with
  | nil =>
    intro a ha
    rw [List.mem_singleton] at ha
    subst ha
    exact Nat.le_refl _
  | cons x t ih =>
    intro a ha
    rw [maxByDescLen_cons]
    rcases List.mem_cons.mp ha with rfl | ha2
    · exact le_trans (descLen_le_pickLonger_left a x)
        (ih (pickLonger a x) _ (by simp))
    · rcases List.mem_cons.mp ha2 with rfl | ha3
      · exact le_trans (descLen_le_pickLonger_right hd a)
          (ih (pickLonger hd a) _ (by simp))
      · exact ih (pickLonger hd x) a (List.mem_cons_of_mem _ ha3)

/-- Python's `max` keeps the first maximal element: the fold result is the
first list member whose description length is maximal. -/
theorem maxByDescLen_first (hd : Activity) (tl : List Activity) :
    (hd :: tl).find?
      (fun a => decide (descLen (maxByDescLen hd tl) ≤ descLen a)) =
      some (maxByDescLen hd tl) := by
  induction tl generalizing hd with
  | nil =>
    simp [maxByDescLen, List.find?]
  | cons x t ih =>
    rw [maxByDescLen_cons]
    by_cases hlt : descLen hd < descLen x
    · have hpick : pickLonger hd x = x := by
        unfold pickLonger
        rw [if_pos hlt]
      rw [hpick]
      have hxle : descLen x ≤ descLen (maxByDescLen x t) :=
        maxByDescLen_le x t x (by simp)
      have hhd : ¬(descLen (maxByDescLen x t) ≤ descLen hd) := by omega
      rw [List.find?_cons_of_neg _ (by simpa using hhd)]
      exact ih x
    · have hpick : pickLonger hd x = hd := by
        unfold pickLonger
        rw [if_neg hlt]
      rw [hpick]
      have hih := ih hd
      by_cases hp : descLen (maxByDescLen hd t) ≤ descLen hd
      · rw [List.find?_cons_of_pos _ (by simpa using hp)] at hih
        have hr : maxByDescLen hd t = hd := by
          injection hih with hih2
          exact hih2.symm
        rw [List.find?_cons_of_pos _ (by simp [hr])]
        rw [hr]
      · rw [List.find?_cons_of_neg _ (by simpa using hp)] at hih
        have hx2 : ¬(descLen (maxByDescLen hd t) ≤ descLen x) := by omega
        rw [List.find?_cons_of_neg _ (by simpa using hp),
          List.find?_cons_of_neg _ (by simpa using hx2)]
        exact hih

/-- `find?` only depends on the predicate's values on the list. -/
theorem find?_congr_mem {α : Type} (p q : α → Bool) (l : List α)
    (h : ∀ a ∈ l, p a = q a) : l.find? p = l.find? q := by
  induction l with
  | nil => rfl
  | cons x t ih =>
    have hx := h x (by simp)
    cases hq : q x
    · rw [List.find?_cons_of_neg _ (by simp [hx, hq]),
        List.find?_cons_of_neg _ (by simp [hq])]
      exact ih (fun a ha => h a (by simp [ha]))
    · rw [List.find?_cons_of_pos _ (by simp [hx, hq]),
        List.find?_cons_of_pos _ (by simp [hq])]

/-- The first-longest-member selection coincides with Python's
`max(group, key=len(description))` on a non-empty group. -/
theorem firstLongest_eq_max (hd : Activity) (tl : List Activity) :
    firstLongest (hd :: tl) = some (maxByDescLen hd tl) := by
  unfold firstLongest
  rw [find?_congr_mem _
      (fun a => decide (descLen (maxByDescLen hd tl) ≤ descLen a)) _ ?_,
    maxByDescLen_first hd tl]
  intro a ha
  rcases le_or_lt (descLen (maxByDescLen hd tl)) (descLen a) with hle | hgt
  · have hall : (hd :: tl).all (fun b => decide (descLen b ≤ descLen a)) = true := by
      rw [List.all_eq_true]
      intro b hb
      simpa using le_trans (maxByDescLen_le hd tl b hb) hle
    simp [hall, hle]
  · have hnall : (hd :: tl).all (fun b => decide (descLen b ≤ descLen a)) = false := by
      rw [← Bool.not_eq_true, List.all_eq_true]
      intro hcon
      have := hcon (maxByDescLen hd tl) (maxByDescLen_mem hd tl)
      simp at this
      omega
    simp [hnall]
    omega

/-- Membership in a duplicate group. -/
theorem mem_groupOf {l : List Activity} {h : String} {a : Activity} :
    a ∈ groupOf l h ↔ a ∈ l ∧ a.canon_hash = h := by
  simp [groupOf, List.mem_filter]

/-- Membership in the first-occurrence key de-duplication. -/
theorem mem_firstDedupAux {xs : List String} {k : String} :
    ∀ {seen : List String}, k ∈ firstDedupAux seen xs ↔ (k ∈ xs ∧ k ∉ seen) := by
  induction xs with
  | nil => intro seen; simp [firstDedupAux]
  | cons x t ih =>
    intro seen
    by_cases hx : x ∈ seen
    · rw [firstDedupAux, if_pos hx, ih]
      constructor
      · rintro ⟨hk, hns⟩
        exact ⟨by simp [hk], hns⟩
      · rintro ⟨hk, hns⟩
        rcases List.mem_cons.mp hk with rfl | hk2
        · exact absurd hx hns
        · exact ⟨hk2, hns⟩
    · rw [firstDedupAux, if_neg hx]
      constructor
      · intro hk
        rcases List.mem_cons.mp hk with rfl | hk2
        · exact ⟨by simp, hx⟩
        · have h2 := ih.mp hk2
          exact ⟨by simp [h2.1], fun hs => h2.2 (by simp [hs])⟩
      · rintro ⟨hk, hns⟩
        rcases List.mem_cons.mp hk with rfl | hk2
        · simp
        · by_cases hkx : k = x
          · subst hkx
            simp
          · exact List.mem_cons_of_mem _
              (ih.mpr ⟨hk2, by simp [hkx, hns]⟩)

/-- The first-occurrence key de-duplication has no duplicates. -/
theorem firstDedupAux_nodup (xs : List String) :
    ∀ seen : List String, (firstDedupAux seen xs).Nodup := by
  induction xs with
  | nil => intro seen; simp [firstDedupAux]
  | cons x t ih =>
    intro seen
    by_cases hx : x ∈ seen
    · simpa [firstDedupAux, hx] using ih seen
    · rw [firstDedupAux, if_neg hx]
      refine List.nodup_cons.mpr ⟨?_, ih (x :: seen)⟩
      intro hmem
      exact (mem_firstDedupAux.mp hmem).2 (by simp)

/-- On a duplicate-free key list disjoint from `seen`, the first-occurrence
de-duplication is the identity. -/
theorem firstDedupAux_eq_self :
    ∀ (xs seen : List String), xs.Nodup → (∀ k ∈ xs, k ∉ seen) →
      firstDedupAux seen xs = xs := by
  intro xs
  induction xs with
  | nil => intro seen _ _; rfl
  | cons x t ih =>
    intro seen hnd hdisj
    have hx : x ∉ seen := hdisj x (by simp)
    rw [firstDedupAux, if_neg hx]
    congr 1
    refine ih (x :: seen) (List.nodup_cons.mp hnd).2 ?_
    intro k hk hks
    rcases List.mem_cons.mp hks with rfl | hk2
    · exact (List.nodup_cons.mp hnd).1 hk
    · exact hdisj k (by simp [hk]) hk2

/-- The fingerprint key list of an input has no duplicates. -/
theorem hashKeys_nodup (l : List Activity) : (hashKeys l).Nodup :=
  firstDedupAux_nodup _ []

/-- A fingerprint is a key iff some input listing carries it. -/
theorem mem_hashKeys {l : List Activity} {k : String} :
    k ∈ hashKeys l ↔ k ∈ l.map (fun a => a.canon_hash) := by
  unfold hashKeys
  rw [mem_firstDedupAux]
  simp

/-- With duplicate-free fingerprints, the key list is the fingerprint list. -/
theorem hashKeys_eq_of_nodup {l : List Activity}
    (h : (l.map (fun a => a.canon_hash)).Nodup) :
    hashKeys l = l.map (fun a => a.canon_hash) :=
  firstDedupAux_eq_self _ [] h (by simp)

/-- A group representative is a member of its group. -/
theorem best_of_group_mem {g : List Activity} {r : Activity}
    (h : best_of_group g = some r) : r ∈ g := by
  cases g with
  | nil => simp [best_of_group] at h
  | cons hd tl =>
    simp only [best_of_group, Option.some.injEq] at h
    exact h ▸ maxByDescLen_mem hd tl

/-- Non-empty groups have a representative. -/
theorem best_of_group_isSome {g : List Activity} (h : g ≠ []) :
    ∃ r, best_of_group g = some r := by
  cases g with
  | nil => exact absurd rfl h
  | cons hd tl => exact ⟨_, rfl⟩

/-- Group members carry the group's fingerprint. -/
theorem groupOf_hash {l : List Activity} {h : String} {a : Activity}
    (ha : a ∈ groupOf l h) : a.canon_hash = h :=
  (mem_groupOf.mp ha).2

/-- Groups of listed fingerprints are non-empty. -/
theorem groupOf_ne_nil {l : List Activity} {h : String}
    (hh : h ∈ hashKeys l) : groupOf l h ≠ [] := by
  rw [mem_hashKeys] at hh
  obtain ⟨a, ha, rfl⟩ := List.mem_map.mp hh
  intro hcon
  have hmem : a ∈ groupOf l a.canon_hash := mem_groupOf.mpr ⟨ha, rfl⟩
  rw [hcon] at hmem
  exact List.not_mem_nil a hmem

/-- Representative extraction preserves the key list of fingerprints. -/
theorem filterMap_best_map_hash (l : List Activity) :
    ∀ ks : List String, (∀ h ∈ ks, groupOf l h ≠ []) →
      (ks.filterMap (fun h => best_of_group (groupOf l h))).map
        (fun a => a.canon_hash) = ks := by
  intro ks
  induction ks with
  | nil => intro _; rfl
  | cons h t ih =>
    intro hne
    obtain ⟨r, hr⟩ := best_of_group_isSome (hne h (by simp))
    simp only [List.filterMap_cons, hr, List.map_cons]
    rw [groupOf_hash (best_of_group_mem hr), ih (fun k hk => hne k (by simp [hk]))]

/-- The deduplicated output lists exactly the input's fingerprint keys. -/
theorem map_hash_deduplicate (l : List Activity) :
    (deduplicate l).map (fun a => a.canon_hash) = hashKeys l :=
  filterMap_best_map_hash l (hashKeys l) (fun _ hh => groupOf_ne_nil hh)

/-- The deduplicated output carries pairwise distinct fingerprints. -/
theorem deduplicate_hashes_nodup (l : List Activity) :
    ((deduplicate l).map (fun a => a.canon_hash)).Nodup := by
  rw [map_hash_deduplicate]
  exact hashKeys_nodup l

/-- With duplicate-free fingerprints every group is the singleton of its
member. -/
theorem groupOf_eq_singleton {l : List Activity}
    (hnd : (l.map (fun a => a.canon_hash)).Nodup) :
    ∀ a ∈ l, groupOf l a.canon_hash = [a] := by
  induction l with
  | nil => simp
  | cons b t ih =>
    intro a ha
    have hb : b.canon_hash ∉ t.map (fun x => x.canon_hash) := by
      simpa using (List.nodup_cons.mp hnd).1
    have hnd2 := (List.nodup_cons.mp hnd).2
    rcases List.mem_cons.mp ha with rfl | ha2
    · simp only [groupOf, List.filter_cons, beq_self_eq_true, if_pos]
      have ht : t.filter (fun x => x.canon_hash == a.canon_hash) = [] := by
        rw [List.filter_eq_nil_iff]
        intro x hx
        simp only [beq_iff_eq]
        intro hcon
        exact hb (by rw [← hcon]; exact List.mem_map_of_mem _ hx)
      rw [ht]
    · have hne : ¬((b.canon_hash == a.canon_hash) = true) := by
        simp only [beq_iff_eq]
        intro hcon
        exact hb (hcon ▸ List.mem_map_of_mem _ ha2)
      simp only [groupOf, List.filter_cons]
      rw [if_neg hne]
      exact ih hnd2 a ha2

/-- Re-extracting representatives from singleton groups is the identity. -/
theorem filterMap_over_map_hash (l : List Activity) :
    ∀ l' : List Activity, (∀ a ∈ l', groupOf l a.canon_hash = [a]) →
      (l'.map (fun a => a.canon_hash)).filterMap
        (fun h => best_of_group (groupOf l h)) = l' := by
  intro l'
  induction l' with
  | nil => intro _; rfl
  | cons a t ih =>
    intro hg
    have hone : best_of_group (groupOf l a.canon_hash) = some a := by
      rw [hg a (by simp)]
      rfl
    rw [List.map_cons]
    simp only [List.filterMap_cons, hone]
    rw [ih (fun x hx => hg x (by simp [hx]))]

/-- On an input with duplicate-free fingerprints, `deduplicate` is the
identity. -/
theorem deduplicate_eq_self {l : List Activity}
    (hnd : (l.map (fun a => a.canon_hash)).Nodup) : deduplicate l = l := by
  unfold deduplicate
  rw [hashKeys_eq_of_nodup hnd]
  exact filterMap_over_map_hash l l (groupOf_eq_singleton hnd)

/-- Re-applying `deduplicate` to an already-deduplicated list changes
nothing. -/
theorem deduplicate_idem (l : List Activity) :
    deduplicate (deduplicate l) = deduplicate l :=
  deduplicate_eq_self (deduplicate_hashes_nodup l)

/-- C6 counterexample: a duplicate group of two listings with equally long
descriptions, identical names (so the edit-distance tie-break is vacuous) and
a strictly earlier `last_verified` on the second; the spec's tie-breaks
require the second listing, but `deduplicate` keeps the first (`max` returns
the first maximal element and applies no further tie-break). -/
theorem dedup_tiebreak_counterexample :
    deduplicate [dupA, dupB] = [dupA] ∧
    dupA.canon_hash = dupB.canon_hash ∧ dupA.name = dupB.name ∧
    descLen dupA = descLen dupB ∧ dupB.last_verified < dupA.last_verified ∧
    dupA ≠ dupB := by
  refine ⟨by decide, rfl, rfl, by decide, by decide, by decide⟩

/-- C6 (amended): for every duplicate group, the canonical representative is
the first group member (in input order) with the longest description; no
edit-distance or `last_verified` tie-break is applied. -/
theorem dedup_representative_longest_first (l : List Activity) (h : String)
    (hh : h ∈ hashKeys l) :
    ∃ r, best_of_group (groupOf l h) = some r ∧ r ∈ deduplicate l ∧
      r ∈ groupOf l h ∧ (∀ a ∈ groupOf l h, descLen a ≤ descLen r) ∧
      firstLongest (groupOf l h) = some r := by
  rcases hgrp : groupOf l h with _ | ⟨hd, tl⟩
  · exact absurd hgrp (groupOf_ne_nil hh)
  · refine ⟨maxByDescLen hd tl, rfl, ?_, maxByDescLen_mem hd tl,
      maxByDescLen_le hd tl, firstLongest_eq_max hd tl⟩
    unfold deduplicate
    exact List.mem_filterMap.mpr ⟨h, hh, by rw [hgrp]; rfl⟩

/-- C6 witness: the amended selection rule applied to the concrete
two-member duplicate group. -/
theorem dedup_representative_witness :
    ∃ r, best_of_group (groupOf [dupA, dupB] "h0") = some r ∧
      r ∈ deduplicate [dupA, dupB] ∧ r ∈ groupOf [dupA, dupB] "h0" ∧
      (∀ a ∈ groupOf [dupA, dupB] "h0", descLen a ≤ descLen r) ∧
      firstLongest (groupOf [dupA, dupB] "h0") = some r :=
  dedup_representative_longest_first [dupA, dupB] "h0" (by decide)

/-- C7: `compute_canon_hash` is a deterministic function of the normalized
name, the fuzzy-rounded date, the coarse venue cell and the lowercased
provider name; every input fingerprint is represented in the deduplicated
output; the output never holds two entries with the same `canon_hash`; and
re-applying `deduplicate` to an already-deduplicated list changes nothing. -/
theorem fingerprint_dedup_idempotent :
    (∀ (nn : String → String) (fr : Int → Int) (ge : ℚ → ℚ → String)
        (sh : String → String) (a b : Activity),
        nn a.name = nn b.name → fr a.start_date = fr b.start_date →
        ge a.venue_lat a.venue_lon = ge b.venue_lat b.venue_lon →
        a.provider.toLower = b.provider.toLower →
        compute_canon_hash nn fr ge sh a = compute_canon_hash nn fr ge sh b) ∧
    (∀ (l : List Activity) (a : Activity), a ∈ l →
        a.canon_hash ∈ (deduplicate l).map (fun x => x.canon_hash)) ∧
    (∀ l : List Activity, ((deduplicate l).map (fun x => x.canon_hash)).Nodup) ∧
    (∀ l : List Activity, deduplicate (deduplicate l) = deduplicate l) := by
  refine ⟨?_, ?_, fun l => deduplicate_hashes_nodup l, fun l => deduplicate_idem l⟩
  · intro nn fr ge sh a b h1 h2 h3 h4
    unfold compute_canon_hash
    rw [h1, h2, h3, h4]
  · intro l a ha
    rw [map_hash_deduplicate, mem_hashKeys]
    exact List.mem_map_of_mem _ ha

/-- C7 witness: the two copies of the same listing hash identically under any
helper instantiation, and deduplicating their group twice equals
deduplicating it once. -/
theorem fingerprint_dedup_idempotent_witness :
    compute_canon_hash id (fun d => d) (fun _ _ => "cell") id dupA =
      compute_canon_hash id (fun d => d) (fun _ _ => "cell") id dupB ∧
    dupA.canon_hash ∈ (deduplicate [dupA, dupB]).map (fun x => x.canon_hash) ∧
    deduplicate (deduplicate [dupA, dupB]) = deduplicate [dupA, dupB] :=
  ⟨fingerprint_dedup_idempotent.1 id (fun d => d) (fun _ _ => "cell") id dupA dupB
      rfl rfl rfl rfl,
   fingerprint_dedup_idempotent.2.1 [dupA, dupB] dupA (by decide),
   fingerprint_dedup_idempotent.2.2.2 [dupA, dupB]⟩

/-- Stable descending insertion grows the length by one. -/
theorem length_insertDesc (c : SCand) (l : List SCand) :
    (insertDesc c l).length = l.length + 1 := by
  induction l with
  | nil => rfl
  | cons b t ih =>
    rw [insertDesc]
    split
    · rfl
    · simp [ih]

/-- Sorting preserves the number of candidates. -/
theorem length_sortByScoreDesc (l : List SCand) :
    (sortByScoreDesc l).length = l.length := by
  unfold sortByScoreDesc
  induction l with
  | nil => rfl
  | cons c t ih => simp [length_insertDesc, ih]

/-- C8 (code bug): on every request with fewer than five scored candidates —
zero, one, or up to four — `generate_recommendations` raises an uncaught
exception instead of returning a well-formed `RecommendationSet` with absent
slots: with zero candidates `scored[0]` raises `IndexError`, and with one to
four candidates the top-20% slice `scored[:int(len*0.2)]` is empty so
`min(...)` raises `ValueError`. -/
theorem selector_throws_under_five (b : ℚ) (scored : List SCand)
    (h : scored.length < 5) : generate_recommendations b scored = none := by
  have hlen : (sortByScoreDesc scored).length < 5 := by
    rw [length_sortByScoreDesc]
    exact h
  simp only [generate_recommendations]
  rcases hs : sortByScoreDesc scored with _ | ⟨p, rest⟩
  · rfl
  · rw [hs] at hlen
    have h0 : pyTop20Count (p :: rest).length = 0 := by
      unfold pyTop20Count
      omega
    rw [h0]
    simp [minByPrice]

/-- C8 witness: the empty candidate list (a child with no catalog matches)
produces an uncaught fault rather than a recommendation set. -/
theorem selector_throws_witness : generate_recommendations 0 [] = none :=
  selector_throws_under_five 0 [] (by decide)

/-- C4 (code bug): on the spec's own three-candidate example — scores
0.9/0.7/0.5, only the 0.5-scored candidate priced above 120% of the budget —
the code does not return primary = 0.9 and stretch = 0.5: it raises
`ValueError` while computing the budget-saver slot (`min` over the empty
top-20% slice of a three-element list) before the stretch slot is ever
selected. -/
theorem selector_spec_example_crashes :
    generate_recommendations 100 selectorTriple = none := by
  have hsort : sortByScoreDesc selectorTriple = selectorTriple := by
    unfold sortByScoreDesc selectorTriple
    norm_num [insertDesc]
  simp only [generate_recommendations, hsort]
  simp only [selectorTriple]
  norm_num [pyTop20Count, minByPrice]

/-- C3: for one child with a per-child cap of 1 and exactly two mutually
conflicting candidates that are each individually eligible (non-negative cost
within the budget, positive integer-scaled score), the solver reports a
feasible plan selecting exactly one of the two candidates — never both (the
conflict and cap constraints forbid it) and never neither (either singleton
beats the empty assignment in the objective). -/
theorem solver_one_of_two_conflicting (c : Nat) (a1 a2 : PoolAct) (B : Int)
    (conflict : PoolAct → PoolAct → Bool)
    (hne : a1 ≠ a2)
    (hconf : conflict a1 a2 = true)
    (hc1 : 0 ≤ a1.costCents) (hc2 : 0 ≤ a2.costCents)
    (hb1 : a1.costCents ≤ B) (hb2 : a2.costCents ≤ B)
    (hs1 : 1 ≤ a1.scoreMilli) (hs2 : 1 ≤ a2.scoreMilli) :
    (solve_family_schedule 1 (some B) conflict [⟨c, [a1, a2]⟩]).feasible = true ∧
    ((solve_family_schedule 1 (some B) conflict [⟨c, [a1, a2]⟩]).plan =
        some [(c, a1)] ∨
      (solve_family_schedule 1 (some B) conflict [⟨c, [a1, a2]⟩]).plan =
        some [(c, a2)]) := by
  have hne' : a2 ≠ a1 := fun hcon => hne hcon.symm
  have hB0 : (0 : Int) ≤ B := le_trans hc1 hb1
  have hf12 : feasibleAssignment 1 (some B) conflict [⟨c, [a1, a2]⟩]
      [(c, a1), (c, a2)] = false := by
    simp [feasibleAssignment, selectedIn, hne']
  have hf1 : feasibleAssignment 1 (some B) conflict [⟨c, [a1, a2]⟩]
      [(c, a1)] = true := by
    simp [feasibleAssignment, selectedIn, conflictViolated, selCost, hne', hb1]
  have hf2 : feasibleAssignment 1 (some B) conflict [⟨c, [a1, a2]⟩]
      [(c, a2)] = true := by
    simp [feasibleAssignment, selectedIn, conflictViolated, selCost, hne, hb2]
  have hf0 : feasibleAssignment 1 (some B) conflict [⟨c, [a1, a2]⟩]
      ([] : List (Nat × PoolAct)) = true := by
    simp [feasibleAssignment, selectedIn, conflictViolated, selCost, hB0]
  have hfilter : (assignments (poolPairs [⟨c, [a1, a2]⟩])).filter
      (feasibleAssignment 1 (some B) conflict [⟨c, [a1, a2]⟩]) =
      [[(c, a1)], [(c, a2)], []] := by
    show ([[(c, a1), (c, a2)], [(c, a1)], [(c, a2)], []]).filter
      (feasibleAssignment 1 (some B) conflict [⟨c, [a1, a2]⟩]) = _
    rw [List.filter_cons, List.filter_cons, List.filter_cons, List.filter_cons,
      List.filter_nil, hf12, hf1, hf2, hf0]
    rfl
  have hs1e : selScore [(c, a1)] = a1.scoreMilli := by simp [selScore]
  have hs2e : selScore [(c, a2)] = a2.scoreMilli := by simp [selScore]
  have hs0e : selScore ([] : List (Nat × PoolAct)) = 0 := rfl
  rcases le_or_lt a2.scoreMilli a1.scoreMilli with hle | hlt
  · have hstep1 : betterOf [(c, a1)] [(c, a2)] = [(c, a1)] := by
      rw [betterOf, if_neg (by rw [hs1e, hs2e]; omega)]
    have hstep2 : betterOf [(c, a1)] [] = [(c, a1)] := by
      rw [betterOf, if_neg (by rw [hs1e, hs0e]; omega)]
    have hbest : bestAssignment [[(c, a1)], [(c, a2)], []] = some [(c, a1)] := by
      show some (betterOf (betterOf [(c, a1)] [(c, a2)]) []) = _
      rw [hstep1, hstep2]
    have hsolve : solve_family_schedule 1 (some B) conflict [⟨c, [a1, a2]⟩] =
        { feasible := true, plan := some [(c, a1)] } := by
      unfold solve_family_schedule
      rw [hfilter, hbest]
    rw [hsolve]
    exact ⟨rfl, Or.inl rfl⟩
  · have hstep1 : betterOf [(c, a1)] [(c, a2)] = [(c, a2)] := by
      rw [betterOf, if_pos (by rw [hs1e, hs2e]; omega)]
    have hstep2 : betterOf [(c, a2)] [] = [(c, a2)] := by
      rw [betterOf, if_neg (by rw [hs2e, hs0e]; omega)]
    have hbest : bestAssignment [[(c, a1)], [(c, a2)], []] = some [(c, a2)] := by
      show some (betterOf (betterOf [(c, a1)] [(c, a2)]) []) = _
      rw [hstep1, hstep2]
    have hsolve : solve_family_schedule 1 (some B) conflict [⟨c, [a1, a2]⟩] =
        { feasible := true, plan := some [(c, a2)] } := by
      unfold solve_family_schedule
      rw [hfilter, hbest]
    rw [hsolve]
    exact ⟨rfl, Or.inr rfl⟩

/-- C3 witness: a concrete one-child instance with cap 1, two always
conflicting candidates within a 10000-cent budget, both positively scored:
the solver selects exactly one. -/
theorem solver_one_of_two_witness :
    (solve_family_schedule 1 (some 10000) (fun _ _ => true)
      [⟨0, [solA, solB]⟩]).feasible = true ∧
    ((solve_family_schedule 1 (some 10000) (fun _ _ => true)
        [⟨0, [solA, solB]⟩]).plan = some [(0, solA)] ∨
      (solve_family_schedule 1 (some 10000) (fun _ _ => true)
        [⟨0, [solA, solB]⟩]).plan = some [(0, solB)]) :=
  solver_one_of_two_conflicting 0 solA solB 10000 (fun _ _ => true)
    (by decide) rfl (by decide) (by decide) (by decide) (by decide)
    (by decide) (by decide)

/-- A probe- and child-wise zero count extends to the whole probe sweep. -/
theorem countP_flatMap_zero {α β : Type} (f : α → List β) (p : β → Bool)
    (l : List α) (h : ∀ a ∈ l, (f a).countP p = 0) :
    (l.flatMap f).countP p = 0 := by
  induction l with
  | nil => rfl
  | cons a t ih =>
    rw [List.flatMap_cons, List.countP_append, h a (by simp),
      ih (fun x hx => h x (by simp [hx]))]

/-- When each child contributes at most one matching suggestion and only the
child with the matching identifier contributes any, the probe sweep over a
duplicate-free child list contributes at most one. -/
theorem countP_flatMap_le_one {α β : Type} (f : α → List β) (p : β → Bool)
    (l : List α) (key : α → Nat) (cid : Nat)
    (hone : ∀ a ∈ l, (f a).countP p ≤ 1)
    (hzero : ∀ a ∈ l, key a ≠ cid → (f a).countP p = 0)
    (hnd : (l.map key).Nodup) :
    (l.flatMap f).countP p ≤ 1 := by
  induction l with
  | nil => simp
  | cons a t ih =>
    have hnd' : key a ∉ t.map key ∧ (t.map key).Nodup := by
      rw [List.map_cons, List.nodup_cons] at hnd
      exact hnd
    rw [List.flatMap_cons, List.countP_append]
    by_cases hk : key a = cid
    · have hrest : (t.flatMap f).countP p = 0 := by
        apply countP_flatMap_zero
        intro x hx
        apply hzero x (by simp [hx])
        intro hcon
        exact hnd'.1 (by rw [hk, ← hcon]; exact List.mem_map_of_mem _ hx)
      rw [hrest]
      have := hone a (by simp)
      omega
    · rw [hzero a (by simp) hk, Nat.zero_add]
      exact ih (fun x hx => hone x (by simp [hx]))
        (fun x hx => hzero x (by simp [hx])) hnd'.2

/-- Every suggestion of the budget probe is an `increase_budget` to the first
of the fixed increments `[50, 100, 150]` whose re-solve is feasible. -/
theorem budget_probe_spec (env : DiagEnv) (mb : Option ℚ) (s : Suggestion)
    (h : s ∈ budget_probe env mb) :
    ∃ b, mb = some b ∧
      ((env.feasible_with_budget (b + 50) = true ∧
          s = Suggestion.increase_budget (b + 50)) ∨
        (env.feasible_with_budget (b + 50) = false ∧
          env.feasible_with_budget (b + 100) = true ∧
          s = Suggestion.increase_budget (b + 100)) ∨
        (env.feasible_with_budget (b + 50) = false ∧
          env.feasible_with_budget (b + 100) = false ∧
          env.feasible_with_budget (b + 150) = true ∧
          s = Suggestion.increase_budget (b + 150))) := by
  cases mb with
  | none => simp [budget_probe] at h
  | some b =>
    refine ⟨b, rfl, ?_⟩
    simp only [budget_probe] at h
    by_cases hb0 : (b == 0) = true
    · rw [if_pos hb0] at h
      simp at h
    · rw [if_neg hb0] at h
      simp only [budget_increments, List.find?] at h
      cases h50 : env.feasible_with_budget (b + 50) <;> rw [h50] at h
      · cases h100 : env.feasible_with_budget (b + 100) <;> rw [h100] at h
        · cases h150 : env.feasible_with_budget (b + 150) <;> rw [h150] at h
          · simp at h
          · simp at h
            exact Or.inr (Or.inr ⟨rfl, rfl, rfl, h⟩)
        · simp at h
          exact Or.inr (Or.inl ⟨rfl, rfl, h⟩)
      · simp at h
        exact Or.inl ⟨rfl, h⟩

/-- Every suggestion of the radius probe for a child is an `expand_radius`
for that child, to the first of the fixed increments `[5, 10, 15]` whose
re-queried catalog pool is strictly larger than the original — no re-solve is
involved. -/
theorem radius_probe_spec (env : DiagEnv) (cnt : Nat → Nat) (c : DiagChild)
    (s : Suggestion) (h : s ∈ radius_probe env cnt c) :
    ∃ r, s = Suggestion.expand_radius c.id r ∧
      cnt c.id < env.candidate_count c.id r ∧
      ((r = c.driving_radius_km + 5) ∨
        (r = c.driving_radius_km + 10 ∧
          ¬(cnt c.id < env.candidate_count c.id (c.driving_radius_km + 5))) ∨
        (r = c.driving_radius_km + 15 ∧
          ¬(cnt c.id < env.candidate_count c.id (c.driving_radius_km + 5)) ∧
          ¬(cnt c.id < env.candidate_count c.id (c.driving_radius_km + 10)))) := by
  unfold radius_probe at h
  simp only [radius_increments, List.find?] at h
  by_cases h5 : cnt c.id < env.candidate_count c.id (c.driving_radius_km + 5)
  · rw [decide_eq_true h5] at h
    simp at h
    exact ⟨_, h, h5, Or.inl rfl⟩
  · rw [decide_eq_false h5] at h
    by_cases h10 : cnt c.id < env.candidate_count c.id (c.driving_radius_km + 10)
    · rw [decide_eq_true h10] at h
      simp at h
      exact ⟨_, h, h10, Or.inr (Or.inl ⟨rfl, h5⟩)⟩
    · rw [decide_eq_false h10] at h
      by_cases h15 : cnt c.id < env.candidate_count c.id (c.driving_radius_km + 15)
      · rw [decide_eq_true h15] at h
        simp at h
        exact ⟨_, h, h15, Or.inr (Or.inr ⟨rfl, h5, h10⟩)⟩
      · rw [decide_eq_false h15] at h
        simp at h

/-- Every suggestion of the time-window probe for a child suggests up to two
of the popular times missing from that child's windows, and is emitted
exactly when some are missing — without any feasibility probing. -/
theorem time_window_probe_spec (env : DiagEnv) (c : DiagChild) (s : Suggestion)
    (h : s ∈ time_window_probe env c) :
    env.popular_times.filter (fun t => !c.schedule_windows.contains t) ≠ [] ∧
    s = Suggestion.add_time_window c.id
      ((env.popular_times.filter (fun t => !c.schedule_windows.contains t)).take 2) := by
  unfold time_window_probe at h
  rcases hm : env.popular_times.filter (fun t => !c.schedule_windows.contains t)
    with _ | ⟨w, ws⟩
  · rw [hm] at h
    simp at h
  · rw [hm] at h
    simp at h
    exact ⟨by simp [hm], by simp [h]⟩

/-- The budget probe emits at most one suggestion. -/
theorem budget_probe_len (env : DiagEnv) (mb : Option ℚ) :
    (budget_probe env mb).length ≤ 1 := by
  cases mb with
  | none => simp [budget_probe]
  | some b =>
    simp only [budget_probe]
    split
    · simp
    · split <;> simp

/-- The radius probe emits at most one suggestion per child. -/
theorem radius_probe_len (env : DiagEnv) (cnt : Nat → Nat) (c : DiagChild) :
    (radius_probe env cnt c).length ≤ 1 := by
  unfold radius_probe
  split <;> simp

/-- The time-window probe emits at most one suggestion per child. -/
theorem time_window_probe_len (env : DiagEnv) (c : DiagChild) :
    (time_window_probe env c).length ≤ 1 := by
  rcases hm : env.popular_times.filter (fun t => !c.schedule_windows.contains t)
    with _ | ⟨w, ws⟩ <;> (simp only [time_window_probe]; rw [hm]; simp)

/-- C9 counterexample: in an environment where no relaxation of any kind
makes the solve feasible (the budget re-solve oracle is everywhere
infeasible; a radius probe run per the spec's re-solve rule returns nothing),
`diagnose_infeasibility` still returns an `expand_radius` suggestion, because
the code's radius probe stops at the first increment that merely yields new
catalog candidates and never re-attempts a solve. -/
theorem diagnoser_suggests_without_resolve :
    diagnose_infeasibility diagEnvCE [diagChildCE] (fun _ => 1) (some 100) =
      [Suggestion.expand_radius 0 10] ∧
    radius_probe_per_spec (fun _ _ => false) diagChildCE = [] ∧
    (∀ q : ℚ, diagEnvCE.feasible_with_budget q = false) := by
  refine ⟨?_, rfl, fun q => rfl⟩
  decide

/-- C9 (amended): the diagnoser probes single-constraint relaxations
independently and returns at most one `increase_budget` suggestion, at most
one `expand_radius` suggestion per child, and at most one `add_time_window`
suggestion per child; the budget probe stops at the first of the increments
50/100/150 whose re-solve is feasible; the radius probe stops at the first of
the increments 5/10/15 that yields newly eligible listings, without
re-checking feasibility; and the time-window probe suggests up to two unused
popular windows whenever any exist, without any feasibility check. -/
theorem diagnoser_probe_structure (env : DiagEnv) (children : List DiagChild)
    (cnt : Nat → Nat) (mb : Option ℚ)
    (hid : (children.map (fun c => c.id)).Nodup) :
    ((diagnose_infeasibility env children cnt mb).countP isBudgetSugg ≤ 1) ∧
    (∀ c ∈ children,
      (diagnose_infeasibility env children cnt mb).countP
        (isRadiusSuggFor c.id) ≤ 1) ∧
    (∀ c ∈ children,
      (diagnose_infeasibility env children cnt mb).countP (isTWSuggFor c.id) ≤ 1) ∧
    (∀ q : ℚ, Suggestion.increase_budget q ∈
        diagnose_infeasibility env children cnt mb →
      ∃ b, mb = some b ∧ env.feasible_with_budget q = true ∧
        (q = b + 50 ∨
          (q = b + 100 ∧ env.feasible_with_budget (b + 50) = false) ∨
          (q = b + 150 ∧ env.feasible_with_budget (b + 50) = false ∧
            env.feasible_with_budget (b + 100) = false))) ∧
    (∀ (cid : Nat) (r : Int), Suggestion.expand_radius cid r ∈
        diagnose_infeasibility env children cnt mb →
      ∃ c, c ∈ children ∧ c.id = cid ∧
        cnt c.id < env.candidate_count c.id r ∧
        (r = c.driving_radius_km + 5 ∨
          (r = c.driving_radius_km + 10 ∧
            ¬(cnt c.id < env.candidate_count c.id (c.driving_radius_km + 5))) ∨
          (r = c.driving_radius_km + 15 ∧
            ¬(cnt c.id < env.candidate_count c.id (c.driving_radius_km + 5)) ∧
            ¬(cnt c.id < env.candidate_count c.id (c.driving_radius_km + 10))))) ∧
    (∀ (cid : Nat) (ws : List Nat), Suggestion.add_time_window cid ws ∈
        diagnose_infeasibility env children cnt mb →
      ∃ c, c ∈ children ∧ c.id = cid ∧
        env.popular_times.filter (fun t => !c.schedule_windows.contains t) ≠ [] ∧
        ws = (env.popular_times.filter
          (fun t => !c.schedule_windows.contains t)).take 2) := by
  have hbp_shape : ∀ s ∈ budget_probe env mb, ∃ q : ℚ,
      s = Suggestion.increase_budget q := by
    intro s hs
    obtain ⟨b, _, hcase⟩ := budget_probe_spec env mb s hs
    rcases hcase with ⟨_, rfl⟩ | ⟨_, _, rfl⟩ | ⟨_, _, _, rfl⟩ <;> exact ⟨_, rfl⟩
  have hrp_shape : ∀ c (s : Suggestion), s ∈ radius_probe env cnt c →
      ∃ r, s = Suggestion.expand_radius c.id r := by
    intro c s hs
    obtain ⟨r, rfl, _⟩ := radius_probe_spec env cnt c s hs
    exact ⟨r, rfl⟩
  have htp_shape : ∀ c (s : Suggestion), s ∈ time_window_probe env c →
      s = Suggestion.add_time_window c.id
        ((env.popular_times.filter (fun t => !c.schedule_windows.contains t)).take 2) :=
    fun c s hs => (time_window_probe_spec env c s hs).2
  have hrp0b : (children.flatMap (radius_probe env cnt)).countP isBudgetSugg = 0 := by
    apply countP_flatMap_zero
    intro c _
    rw [List.countP_eq_zero]
    intro s hs
    obtain ⟨r, rfl⟩ := hrp_shape c s hs
    simp [isBudgetSugg]
  have htp0b : (children.flatMap (time_window_probe env)).countP isBudgetSugg = 0 := by
    apply countP_flatMap_zero
    intro c _
    rw [List.countP_eq_zero]
    intro s hs
    rw [htp_shape c s hs]
    simp [isBudgetSugg]
  have hbp0r : ∀ cid, (budget_probe env mb).countP (isRadiusSuggFor cid) = 0 := by
    intro cid
    rw [List.countP_eq_zero]
    intro s hs
    obtain ⟨q, rfl⟩ := hbp_shape s hs
    simp [isRadiusSuggFor]
  have hbp0t : ∀ cid, (budget_probe env mb).countP (isTWSuggFor cid) = 0 := by
    intro cid
    rw [List.countP_eq_zero]
    intro s hs
    obtain ⟨q, rfl⟩ := hbp_shape s hs
    simp [isTWSuggFor]
  have htp0r : ∀ cid,
      (children.flatMap (time_window_probe env)).countP (isRadiusSuggFor cid) = 0 := by
    intro cid
    apply countP_flatMap_zero
    intro c _
    rw [List.countP_eq_zero]
    intro s hs
    rw [htp_shape c s hs]
    simp [isRadiusSuggFor]
  have hrp0t : ∀ cid,
      (children.flatMap (radius_probe env cnt)).countP (isTWSuggFor cid) = 0 := by
    intro cid
    apply countP_flatMap_zero
    intro c _
    rw [List.countP_eq_zero]
    intro s hs
    obtain ⟨r, rfl⟩ := hrp_shape c s hs
    simp [isTWSuggFor]
  refine ⟨?_, ?_, ?_, ?_, ?_, ?_⟩
  · rw [diagnose_infeasibility, List.countP_append, List.countP_append,
      hrp0b, htp0b]
    have h1 := List.countP_le_length (p := isBudgetSugg) (l := budget_probe env mb)
    have h2 := budget_probe_len env mb
    omega
  · intro c hc
    rw [diagnose_infeasibility, List.countP_append, List.countP_append,
      hbp0r c.id, htp0r c.id]
    have hmid : (children.flatMap (radius_probe env cnt)).countP
        (isRadiusSuggFor c.id) ≤ 1 := by
      apply countP_flatMap_le_one _ _ _ (fun x => x.id) c.id _ _ hid
      · intro a _
        exact le_trans (List.countP_le_length _) (radius_probe_len env cnt a)
      · intro a _ hne
        rw [List.countP_eq_zero]
        intro s hs
        obtain ⟨r, rfl⟩ := hrp_shape a s hs
        simp [isRadiusSuggFor, hne]
    omega
  · intro c hc
    rw [diagnose_infeasibility, List.countP_append, List.countP_append,
      hbp0t c.id, hrp0t c.id]
    have hmid : (children.flatMap (time_window_probe env)).countP
        (isTWSuggFor c.id) ≤ 1 := by
      apply countP_flatMap_le_one _ _ _ (fun x => x.id) c.id _ _ hid
      · intro a _
        exact le_trans (List.countP_le_length _) (time_window_probe_len env a)
      · intro a _ hne
        rw [List.countP_eq_zero]
        intro s hs
        rw [htp_shape a s hs]
        simp [isTWSuggFor, hne]
    omega
  · intro q hq
    rw [diagnose_infeasibility] at hq
    rcases List.mem_append.mp hq with hq1 | hq2
    rcases List.mem_append.mp hq1 with hq1 | hq1
    · obtain ⟨b, hmb, hcase⟩ := budget_probe_spec env mb _ hq1
      refine ⟨b, hmb, ?_⟩
      rcases hcase with ⟨hf, hs⟩ | ⟨h50, hf, hs⟩ | ⟨h50, h100, hf, hs⟩ <;>
        injection hs with hqe
      · rw [hqe]
        exact ⟨hf, Or.inl rfl⟩
      · rw [hqe]
        exact ⟨hf, Or.inr (Or.inl ⟨rfl, h50⟩)⟩
      · rw [hqe]
        exact ⟨hf, Or.inr (Or.inr ⟨rfl, h50, h100⟩)⟩
    · obtain ⟨c, hc, hs⟩ := List.mem_flatMap.mp hq1
      obtain ⟨r, heq⟩ := hrp_shape c _ hs
      simp at heq
    · obtain ⟨c, hc, hs⟩ := List.mem_flatMap.mp hq2
      have heq := htp_shape c _ hs
      simp at heq
  · intro cid r hr
    rw [diagnose_infeasibility] at hr
    rcases List.mem_append.mp hr with hr1 | hr2
    rcases List.mem_append.mp hr1 with hr1 | hr1
    · obtain ⟨q, heq⟩ := hbp_shape _ hr1
      simp at heq
    · obtain ⟨c, hc, hs⟩ := List.mem_flatMap.mp hr1
      obtain ⟨r', heq, hnew, hfirst⟩ := radius_probe_spec env cnt c _ hs
      injection heq with hcid hr'
      exact ⟨c, hc, hcid.symm, hr' ▸ hnew, hr' ▸ hfirst⟩
    · obtain ⟨c, hc, hs⟩ := List.mem_flatMap.mp hr2
      have heq := htp_shape c _ hs
      simp at heq
  · intro cid ws hw
    rw [diagnose_infeasibility] at hw
    rcases List.mem_append.mp hw with hw1 | hw2
    rcases List.mem_append.mp hw1 with hw1 | hw1
    · obtain ⟨q, heq⟩ := hbp_shape _ hw1
      simp at heq
    · obtain ⟨c, hc, hs⟩ := List.mem_flatMap.mp hw1
      obtain ⟨r', heq⟩ := hrp_shape c _ hs
      simp at heq
    · obtain ⟨c, hc, hs⟩ := List.mem_flatMap.mp hw2
      obtain ⟨hne, heq⟩ := time_window_probe_spec env c _ hs
      injection heq with hcid hws
      exact ⟨c, hc, hcid.symm, hne, hws⟩

/-- C9 witness: the amended probe structure at the counterexample instance
(one child, identifier 0, radius 5 km, no windows, budget 100). -/
theorem diagnoser_probe_structure_witness :
    ((diagnose_infeasibility diagEnvCE [diagChildCE] (fun _ => 1)
        (some 100)).countP isBudgetSugg ≤ 1) ∧
    (∀ c ∈ [diagChildCE],
      (diagnose_infeasibility diagEnvCE [diagChildCE] (fun _ => 1)
        (some 100)).countP (isRadiusSuggFor c.id) ≤ 1) :=
  ⟨(diagnoser_probe_structure diagEnvCE [diagChildCE] (fun _ => 1) (some 100)
      (by decide)).1,
   (diagnoser_probe_structure diagEnvCE [diagChildCE] (fun _ => 1) (some 100)
      (by decide)).2.1⟩

end Compass
